import Mathlib

/-!
Verification of the atom-group core of the colvars module (`colvaratoms.h`).

The repository ships only the header: the inline bodies (`atom::reset_data`,
`atom_group::reset_atoms_data`) are embedded directly from the source, while
the remaining operations (geometry queries, the roto-translational fit, and
the three force-application paths) are modelled from the specification, as
indicated by the doc comment of each such definition.

Real numbers stand for `cvm::real`; a three-component structure stands for
`cvm::rvector` / `cvm::atom_pos`; a quaternion stands for `cvm::rotation`
(the spec mandates the quaternion method for the optimal-superposition
solve).  The host force buffer is a function from proxy indices to vectors,
and force-application operations return the ordered list of
`apply_atom_force` calls they issue, so that claims about the buffer can be
stated by folding that list.
-/

namespace Colvars

open Matrix

/-- A Cartesian 3-vector, standing for `cvm::rvector` and `cvm::atom_pos`. -/
structure Rvector where
  x : ℝ
  y : ℝ
  z : ℝ

instance : Zero Rvector := ⟨⟨0, 0, 0⟩⟩

instance : Add Rvector := ⟨fun a b => ⟨a.x + b.x, a.y + b.y, a.z + b.z⟩⟩

instance : Sub Rvector := ⟨fun a b => ⟨a.x - b.x, a.y - b.y, a.z - b.z⟩⟩

instance : SMul ℝ Rvector := ⟨fun c v => ⟨c * v.x, c * v.y, c * v.z⟩⟩

/-- Squared Euclidean norm of a 3-vector (`norm2` in the module). -/
def Rvector.normSq (v : Rvector) : ℝ := v.x ^ 2 + v.y ^ 2 + v.z ^ 2

/-- Sum of a list of 3-vectors. -/
def vsum : List Rvector → Rvector
  | [] => 0
  | v :: vs => v + vsum vs

/-- A rotation stored as a quaternion, standing for `cvm::rotation`
(`q0` the scalar part). -/
structure Quat where
  q0 : ℝ
  q1 : ℝ
  q2 : ℝ
  q3 : ℝ

/-- The identity rotation `(1, 0, 0, 0)`. -/
def Quat.one : Quat := ⟨1, 0, 0, 0⟩

/-- Squared norm of a quaternion. -/
def Quat.normSq (q : Quat) : ℝ := q.q0 ^ 2 + q.q1 ^ 2 + q.q2 ^ 2 + q.q3 ^ 2

/-- Conjugate quaternion: for a unit quaternion this is the inverse rotation,
what `rotation::inverse()` returns. -/
def Quat.conj (q : Quat) : Quat := ⟨q.q0, -q.q1, -q.q2, -q.q3⟩

/-- Modelled from the spec: the body of `cvm::rotation::rotate` is not under
`src/`; the spec (§4.3) fixes the quaternion representation of the solved
rotation, so rotating a vector applies the standard rotation matrix of the
quaternion. -/
def Quat.rotate (q : Quat) (v : Rvector) : Rvector :=
  ⟨(q.q0 ^ 2 + q.q1 ^ 2 - q.q2 ^ 2 - q.q3 ^ 2) * v.x
     + 2 * (q.q1 * q.q2 - q.q0 * q.q3) * v.y
     + 2 * (q.q1 * q.q3 + q.q0 * q.q2) * v.z,
   2 * (q.q1 * q.q2 + q.q0 * q.q3) * v.x
     + (q.q0 ^ 2 - q.q1 ^ 2 + q.q2 ^ 2 - q.q3 ^ 2) * v.y
     + 2 * (q.q2 * q.q3 - q.q0 * q.q1) * v.z,
   2 * (q.q1 * q.q3 - q.q0 * q.q2) * v.x
     + 2 * (q.q2 * q.q3 + q.q0 * q.q1) * v.y
     + (q.q0 ^ 2 - q.q1 ^ 2 - q.q2 ^ 2 + q.q3 ^ 2) * v.z⟩

/-- The 3×3 matrix of the rotation represented by a quaternion, for stating
orthonormality and determinant facts. -/
def rotMatrix (q : Quat) : Matrix (Fin 3) (Fin 3) ℝ :=
  !![q.q0 ^ 2 + q.q1 ^ 2 - q.q2 ^ 2 - q.q3 ^ 2,
     2 * (q.q1 * q.q2 - q.q0 * q.q3),
     2 * (q.q1 * q.q3 + q.q0 * q.q2);
     2 * (q.q1 * q.q2 + q.q0 * q.q3),
     q.q0 ^ 2 - q.q1 ^ 2 + q.q2 ^ 2 - q.q3 ^ 2,
     2 * (q.q2 * q.q3 - q.q0 * q.q1);
     2 * (q.q1 * q.q3 - q.q0 * q.q2),
     2 * (q.q2 * q.q3 + q.q0 * q.q1),
     q.q0 ^ 2 - q.q1 ^ 2 - q.q2 ^ 2 + q.q3 ^ 2]

/-- The coordinates of a 3-vector as a function on `Fin 3`. -/
def Rvector.toFn (v : Rvector) : Fin 3 → ℝ := ![v.x, v.y, v.z]

/-- Weighted sum of squared displacements between the `c`-centered current
positions `xs` rotated by `q` and the reference positions `rs`
(the superposition objective of spec §4.3, one term per atom). -/
def objSum (c : Rvector) (q : Quat) : List ℝ → List Rvector → List Rvector → ℝ
  | w :: ws, xv :: xs, r :: rs =>
      w * ((q.rotate (xv - c)) - r).normSq + objSum c q ws xs rs
  | _, _, _ => 0

/-- Modelled from the spec: the weighted centroid `c_x` of §4.3 that the fit
(whose implementation is not under `src/`) subtracts from the current
positions before rotating. -/
noncomputable def fitCenter (ws : List ℝ) (xs : List Rvector) : Rvector :=
  (ws.sum)⁻¹ • vsum (List.zipWith (fun w xv => w • xv) ws xs)

/-- The full fit objective of spec §4.3:
`Σᵢ wᵢ ‖ R·(xᵢ − c_x) − rᵢ ‖²` with `c_x` the weighted centroid. -/
noncomputable def fitObjective (ws : List ℝ) (xs rs : List Rvector) (q : Quat) : ℝ :=
  objSum (fitCenter ws xs) q ws xs rs

/-- Modelled from the spec: the optimal-superposition solve (§4.3) is not
under `src/`; its defining property is that the returned unit quaternion
minimizes the weighted squared-displacement objective over all unit
quaternions. -/
def IsOptimalRotation (ws : List ℝ) (xs rs : List Rvector) (q : Quat) : Prop :=
  q.normSq = 1 ∧
    ∀ p : Quat, p.normSq = 1 → fitObjective ws xs rs q ≤ fitObjective ws xs rs p

/-- One atom handle: `colvarmodule::atom` (`colvaratoms.h`, lines 19–125). -/
structure Atom where
  index : Int
  id : Int
  mass : ℝ
  pos : Rvector
  vel : Rvector
  system_force : Rvector
  grad : Rvector

/-- `atom::reset_data` (`colvaratoms.h`, lines 82–86): set mutable data
(everything except `id` and `mass`) to zero. -/
def Atom.reset_data (a : Atom) : Atom :=
  { a with pos := 0, vel := 0, grad := 0, system_force := 0 }

/-- The non-recursive fields of `colvarmodule::atom_group`
(`colvaratoms.h`, lines 137–350); `atoms` holds the contents of the
inherited `std::vector<cvm::atom>`. -/
structure AtomGroupData where
  b_dummy : Bool
  dummy_atom_pos : Rvector
  weights : List ℝ
  b_center : Bool
  b_rotate : Bool
  rot : Quat
  b_fit_gradients : Bool
  ref_pos : List Rvector
  ref_pos_cog : Rvector
  total_mass : ℝ
  noforce : Bool
  fit_gradients : List Rvector
  atoms : List Atom

/-- An atom group together with its (possibly absent) fitting group
`ref_pos_group`; a `none` pointer means the group defines its own fit,
as in the C++ default. -/
inductive AtomGroup : Type where
  | mk (data : AtomGroupData) (rpg : Option AtomGroup) : AtomGroup

/-- The plain-data fields of a group. -/
def AtomGroup.data : AtomGroup → AtomGroupData
  | .mk d _ => d

/-- The `ref_pos_group` pointer (`colvaratoms.h`, line 198). -/
def AtomGroup.ref_pos_group : AtomGroup → Option AtomGroup
  | .mk _ r => r

/-- `atom_group::reset_atoms_data` (`colvaratoms.h`, lines 266–272):
call `reset_data()` on every member atom, then recurse into
`ref_pos_group` when the pointer is set. -/
def AtomGroup.reset_atoms_data : AtomGroup → AtomGroup
  | .mk d none =>
      .mk { d with atoms := d.atoms.map Atom.reset_data } none
  | .mk d (some h) =>
      .mk { d with atoms := d.atoms.map Atom.reset_data }
        (some h.reset_atoms_data)

/-- Modelled from the spec: the body of `atom_group::positions` is not under
`src/`; per §4.2/§8 it fails on a dummy group and otherwise returns a
snapshot of the cached member positions in member order. -/
def AtomGroup.positions (g : AtomGroup) : Except String (List Rvector) :=
  if g.data.b_dummy then .error "positions are unsupported on dummy group"
  else .ok (g.data.atoms.map Atom.pos)

/-- Modelled from the spec: the body of `atom_group::positions_shifted` is
not under `src/`; same snapshot as `positions`, each entry shifted by a
constant vector. -/
def AtomGroup.positions_shifted (g : AtomGroup) (shift : Rvector) :
    Except String (List Rvector) :=
  if g.data.b_dummy then .error "positions are unsupported on dummy group"
  else .ok (g.data.atoms.map fun a => a.pos + shift)

/-- Modelled from the spec: the body of `atom_group::center_of_geometry` is
not under `src/`; per §4.2 it is the unweighted mean of member positions,
and per §8 a dummy group reports its fixed `dummy_atom_pos`. -/
noncomputable def AtomGroup.center_of_geometry (g : AtomGroup) : Rvector :=
  if g.data.b_dummy then g.data.dummy_atom_pos
  else ((g.data.atoms.length : ℝ))⁻¹ • vsum (g.data.atoms.map Atom.pos)

/-- Modelled from the spec: the body of `atom_group::center_of_mass` is not
under `src/`; per §4.2 it is the mass-weighted mean of member positions
(sum of `massᵢ • posᵢ` over `total_mass`). -/
noncomputable def AtomGroup.center_of_mass (g : AtomGroup) : Rvector :=
  if g.data.b_dummy then g.data.dummy_atom_pos
  else (g.data.total_mass)⁻¹ • vsum (g.data.atoms.map fun a => a.mass • a.pos)

/-- Member atoms with masses replaced pairwise from `ms` (used to state that
geometric-center queries are independent of the mass values). -/
def AtomGroup.with_masses (g : AtomGroup) (ms : List ℝ) : AtomGroup :=
  .mk { g.data with
          atoms := List.zipWith (fun a m => { a with mass := m }) g.data.atoms ms }
    g.ref_pos_group

/-- The weights the fit uses (spec §3: explicit `weights` when present,
implicit mass-weighting otherwise). -/
def AtomGroupData.fit_weights (g : AtomGroupData) : List ℝ :=
  if g.weights.isEmpty then g.atoms.map Atom.mass else g.weights

/-- The translation removed from the current positions by the fit: the
weighted centroid of spec §4.3. -/
noncomputable def AtomGroupData.fit_translation (g : AtomGroupData) : Rvector :=
  fitCenter g.fit_weights (g.atoms.map Atom.pos)

/-- Modelled from the spec: the body of
`atom_group::calc_apply_roto_translation` (`colvaratoms.h`, line 242) is not
under `src/`.  Per §4.3 it stores in `rot` an optimal rotation for the
current/reference configuration and overwrites each cached position with its
fitted-frame value `R·(xᵢ − c_x)`.  `g` is the group before the call and
`g'` after it. -/
noncomputable def CalcApplyRotoTranslation (g g' : AtomGroupData) : Prop :=
  IsOptimalRotation g.fit_weights (g.atoms.map Atom.pos) g.ref_pos g'.rot ∧
    g'.atoms =
      g.atoms.map fun a => { a with pos := g'.rot.rotate (a.pos - g.fit_translation) }

/-- The host force buffer: accumulated force per proxy index. -/
def ForceBuffer : Type := Int → Rvector

/-- `colvarproxy::apply_atom_force`: additive accumulation at one index
(spec §6). -/
def applyAtomForce (buf : ForceBuffer) (i : Int) (f : Rvector) : ForceBuffer :=
  fun j => if j = i then buf j + f else buf j

/-- Replay an ordered list of `apply_atom_force` calls on a buffer. -/
def foldForces (buf : ForceBuffer) : List (Int × Rvector) → ForceBuffer
  | [] => buf
  | (i, f) :: rest => foldForces (applyAtomForce buf i f) rest

/-- Apply the outcome of a force operation to a buffer: an error applies
nothing. -/
def runForces (buf : ForceBuffer) (r : Except String (List (Int × Rvector))) :
    ForceBuffer :=
  match r with
  | .ok l => foldForces buf l
  | .error _ => buf

/-- Per spec §4.4: a vector is rotated back to the lab frame by the inverse
of the fit rotation when `b_rotate` is set, and left alone otherwise. -/
def AtomGroupData.rotate_back (g : AtomGroupData) (v : Rvector) : Rvector :=
  if g.b_rotate then g.rot.conj.rotate v else v

/-- The fitting group: `ref_pos_group` when set, the group itself otherwise
(`colvaratoms.h`, lines 196–198). -/
def AtomGroup.fit_group (g : AtomGroup) : AtomGroup :=
  match g.ref_pos_group with
  | some h => h
  | none => g

/-- Modelled from the spec: the body of `atom_group::apply_colvar_force`
(`colvaratoms.h`, line 325) is not under `src/`.  Per §4.4 and §7: a dummy
group fails fast, a `noforce` group silently applies nothing; otherwise each
member receives `force • gradᵢ`, rotated back to the lab frame when
`b_rotate` is set, and when both fitting and `b_fit_gradients` are active
the fit group's atoms additionally receive `force • fit_gradientsⱼ`. -/
def AtomGroup.apply_colvar_force (g : AtomGroup) (force : ℝ) :
    Except String (List (Int × Rvector)) :=
  if g.data.b_dummy then .error "unsupported on dummy group"
  else if g.data.noforce then .ok []
  else
    .ok ((g.data.atoms.map fun a => (a.index, force • g.data.rotate_back a.grad)) ++
      (if g.data.b_rotate && g.data.b_fit_gradients then
        List.zipWith (fun a fg => (a.index, force • fg))
          g.fit_group.data.atoms g.fit_group.data.fit_gradients
      else []))

/-- Modelled from the spec: the body of `atom_group::apply_force`
(`colvaratoms.h`, line 336) is not under `src/`.  Per §4.4: distribute one
Cartesian force over the members proportionally to `massᵢ / total_mass`, or
to the explicit weights when present, rotating each share back to the lab
frame when `b_rotate` is set. -/
noncomputable def AtomGroup.apply_force (g : AtomGroup) (force : Rvector) :
    Except String (List (Int × Rvector)) :=
  if g.data.b_dummy then .error "unsupported on dummy group"
  else if g.data.noforce then .ok []
  else if g.data.weights.isEmpty then
    .ok (g.data.atoms.map fun a =>
      (a.index, (a.mass / g.data.total_mass) • g.data.rotate_back force))
  else
    .ok (List.zipWith (fun a w =>
      (a.index, (w / g.data.weights.sum) • g.data.rotate_back force))
      g.data.atoms g.data.weights)

/-- Modelled from the spec: the body of `atom_group::apply_forces`
(`colvaratoms.h`, line 348) is not under `src/`.  Per §4.4: one supplied
force per member, no mass weighting, each rotated back to the lab frame when
`b_rotate` is set; per §8 the call fails on a dummy group, and the supplied
array must have the group's length. -/
def AtomGroup.apply_forces (g : AtomGroup) (forces : List Rvector) :
    Except String (List (Int × Rvector)) :=
  if g.data.b_dummy then .error "unsupported on dummy group"
  else if g.data.noforce then .ok []
  else if forces.length ≠ g.data.atoms.length then
    .error "wrong number of forces"
  else
    .ok (List.zipWith (fun a f => (a.index, g.data.rotate_back f))
      g.data.atoms forces)

/-- A one-atom configuration already at its reference position, used to
exhibit a concrete solved fit. -/
def gC1 : AtomGroupData :=
  { b_dummy := false, dummy_atom_pos := 0, weights := [1], b_center := true,
    b_rotate := true, rot := Quat.one, b_fit_gradients := false,
    ref_pos := [0], ref_pos_cog := 0, total_mass := 1, noforce := false,
    fit_gradients := [], atoms := [⟨0, 0, 1, 0, 0, 0, 0⟩] }

/-- A rotated, fit-gradient-enabled group with a zero colvar gradient but a
nonzero fit-gradient entry. -/
def gC2 : AtomGroup :=
  .mk { b_dummy := false, dummy_atom_pos := 0, weights := [], b_center := false,
        b_rotate := true, rot := Quat.one, b_fit_gradients := true,
        ref_pos := [0], ref_pos_cog := 0, total_mass := 1, noforce := false,
        fit_gradients := [⟨1, 0, 0⟩], atoms := [⟨0, 0, 1, 0, 0, 0, 0⟩] } none

/-- A rotated group (identity rotation) without fit gradients, with one atom
carrying a nonzero colvar gradient. -/
def gC2w : AtomGroup :=
  .mk { b_dummy := false, dummy_atom_pos := 0, weights := [], b_center := false,
        b_rotate := true, rot := Quat.one, b_fit_gradients := false,
        ref_pos := [0], ref_pos_cog := 0, total_mass := 1, noforce := false,
        fit_gradients := [], atoms := [⟨7, 7, 1, 0, 0, 0, ⟨1, 2, 3⟩⟩] } none

/-- A two-atom mass-weighted group (masses 1 and 3) with rotation fitting
disabled. -/
def gC3 : AtomGroup :=
  .mk { b_dummy := false, dummy_atom_pos := 0, weights := [], b_center := false,
        b_rotate := false, rot := Quat.one, b_fit_gradients := false,
        ref_pos := [], ref_pos_cog := 0, total_mass := 4, noforce := false,
        fit_gradients := [], atoms := [⟨1, 1, 1, 0, 0, 0, 0⟩, ⟨2, 2, 3, 0, 0, 0, 0⟩] } none

/-- A one-atom group whose current position equals its reference position
(a degenerate configuration for the fit). -/
def gC4 : AtomGroupData :=
  { b_dummy := false, dummy_atom_pos := 0, weights := [1], b_center := true,
    b_rotate := true, rot := Quat.one, b_fit_gradients := false,
    ref_pos := [0], ref_pos_cog := 0, total_mass := 1, noforce := false,
    fit_gradients := [], atoms := [⟨3, 3, 1, 0, 0, 0, 0⟩] }

/-- `gC4` after a fit solve that stored a 180° rotation about the z axis. -/
def gC4x : AtomGroupData := { gC4 with rot := ⟨0, 0, 0, 1⟩ }

/-- Another one-atom group at its reference position, for the round-trip
fit. -/
def gC4w : AtomGroupData :=
  { b_dummy := false, dummy_atom_pos := 0, weights := [1], b_center := true,
    b_rotate := true, rot := Quat.one, b_fit_gradients := false,
    ref_pos := [0], ref_pos_cog := 0, total_mass := 1, noforce := false,
    fit_gradients := [], atoms := [⟨4, 4, 1, 0, 0, 0, 0⟩] }

/-- A dummy group wrapping the fixed position `(1, 2, 3)`. -/
def gC5 : AtomGroup :=
  .mk { b_dummy := true, dummy_atom_pos := ⟨1, 2, 3⟩, weights := [],
        b_center := false, b_rotate := false, rot := Quat.one,
        b_fit_gradients := false, ref_pos := [], ref_pos_cog := 0,
        total_mass := 0, noforce := false, fit_gradients := [], atoms := [] } none

/-- A `noforce` group with one atom carrying a nonzero gradient. -/
def gC6 : AtomGroup :=
  .mk { b_dummy := false, dummy_atom_pos := 0, weights := [], b_center := false,
        b_rotate := false, rot := Quat.one, b_fit_gradients := false,
        ref_pos := [], ref_pos_cog := 0, total_mass := 1, noforce := true,
        fit_gradients := [], atoms := [⟨5, 5, 1, 0, 0, 0, ⟨1, 1, 1⟩⟩] } none

/-- Two atoms at `(1,0,0)` and `(3,0,0)` with masses 1 and 3. -/
def gC9 : AtomGroup :=
  .mk { b_dummy := false, dummy_atom_pos := 0, weights := [], b_center := false,
        b_rotate := false, rot := Quat.one, b_fit_gradients := false,
        ref_pos := [], ref_pos_cog := 0, total_mass := 4, noforce := false,
        fit_gradients := [],
        atoms := [⟨1, 1, 1, ⟨1, 0, 0⟩, 0, 0, 0⟩, ⟨2, 2, 3, ⟨3, 0, 0⟩, 0, 0, 0⟩] } none

/-- Two atoms at generic positions for the shifted-snapshot query. -/
def gC10 : AtomGroup :=
  .mk { b_dummy := false, dummy_atom_pos := 0, weights := [], b_center := false,
        b_rotate := false, rot := Quat.one, b_fit_gradients := false,
        ref_pos := [], ref_pos_cog := 0, total_mass := 2, noforce := false,
        fit_gradients := [],
        atoms := [⟨8, 8, 1, ⟨1, 2, 3⟩, 0, 0, 0⟩, ⟨9, 9, 1, ⟨4, 5, 6⟩, 0, 0, 0⟩] } none

@[simp] theorem Rvector.zero_x : (0 : Rvector).x = 0 := rfl

@[simp] theorem Rvector.zero_y : (0 : Rvector).y = 0 := rfl

@[simp] theorem Rvector.zero_z : (0 : Rvector).z = 0 := rfl

@[simp] theorem Rvector.add_x (a b : Rvector) : (a + b).x = a.x + b.x := rfl

@[simp] theorem Rvector.add_y (a b : Rvector) : (a + b).y = a.y + b.y := rfl

@[simp] theorem Rvector.add_z (a b : Rvector) : (a + b).z = a.z + b.z := rfl

@[simp] theorem Rvector.sub_x (a b : Rvector) : (a - b).x = a.x - b.x := rfl

@[simp] theorem Rvector.sub_y (a b : Rvector) : (a - b).y = a.y - b.y := rfl

@[simp] theorem Rvector.sub_z (a b : Rvector) : (a - b).z = a.z - b.z := rfl

@[simp] theorem Rvector.smul_x (c : ℝ) (v : Rvector) : (c • v).x = c * v.x := rfl

@[simp] theorem Rvector.smul_y (c : ℝ) (v : Rvector) : (c • v).y = c * v.y := rfl

@[simp] theorem Rvector.smul_z (c : ℝ) (v : Rvector) : (c • v).z = c * v.z := rfl

theorem Rvector.ext_components {a b : Rvector}
    (hx : a.x = b.x) (hy : a.y = b.y) (hz : a.z = b.z) : a = b := by
  cases a; cases b; simp_all

@[simp] theorem Rvector.normSq_zero : (0 : Rvector).normSq = 0 := by
  simp [Rvector.normSq]

theorem Rvector.normSq_nonneg (v : Rvector) : 0 ≤ v.normSq := by
  have hx := sq_nonneg v.x
  have hy := sq_nonneg v.y
  have hz := sq_nonneg v.z
  unfold Rvector.normSq
  linarith

@[simp] theorem Rvector.sub_self (v : Rvector) : v - v = 0 := by
  apply Rvector.ext_components <;> simp

@[simp] theorem Rvector.sub_zero (v : Rvector) : v - 0 = v := by
  apply Rvector.ext_components <;> simp

@[simp] theorem vsum_nil : vsum [] = 0 := rfl

@[simp] theorem vsum_cons (v : Rvector) (vs : List Rvector) :
    vsum (v :: vs) = v + vsum vs := rfl

@[simp] theorem Quat.normSq_one : Quat.one.normSq = 1 := by
  simp [Quat.one, Quat.normSq]

@[simp] theorem Quat.rotate_zero (q : Quat) : q.rotate 0 = 0 := by
  apply Rvector.ext_components <;> simp [Quat.rotate]

@[simp] theorem Quat.rotate_one (v : Rvector) : Quat.one.rotate v = v := by
  apply Rvector.ext_components <;> simp [Quat.rotate, Quat.one]

theorem rotate_eq_mulVec (q : Quat) (v : Rvector) :
    (q.rotate v).toFn = (rotMatrix q).mulVec v.toFn := by
  funext i
  fin_cases i <;>
    simp [Quat.rotate, rotMatrix, Rvector.toFn, Matrix.mulVec, dotProduct,
      Fin.sum_univ_three]

theorem rotMatrix_conj (q : Quat) : rotMatrix q.conj = (rotMatrix q)ᵀ := by
  ext i j
  fin_cases i <;> fin_cases j <;>
    simp [rotMatrix, Quat.conj, Matrix.transpose] <;> ring

theorem rotMatrix_transpose_mul (q : Quat) :
    (rotMatrix q)ᵀ * rotMatrix q = (q.normSq ^ 2) • 1 := by
  rw [← rotMatrix_conj]
  ext i j
  fin_cases i <;> fin_cases j <;>
    simp [rotMatrix, Quat.conj, Quat.normSq, Matrix.mul_apply,
      Fin.sum_univ_three, Matrix.one_apply, Matrix.smul_apply] <;> ring

theorem rotMatrix_det (q : Quat) : (rotMatrix q).det = q.normSq ^ 3 := by
  simp [rotMatrix, Matrix.det_fin_three, Quat.normSq]
  ring

@[simp] theorem Rvector.add_zero_vec (v : Rvector) : v + 0 = v := by
  apply Rvector.ext_components <;> simp

@[simp] theorem Rvector.zero_add_vec (v : Rvector) : (0 : Rvector) + v = v := by
  apply Rvector.ext_components <;> simp

@[simp] theorem Rvector.smul_zero_vec (c : ℝ) : c • (0 : Rvector) = 0 := by
  apply Rvector.ext_components <;> simp

@[simp] theorem Rvector.zero_smul_vec (v : Rvector) : (0 : ℝ) • v = 0 := by
  apply Rvector.ext_components <;> simp

@[simp] theorem Rvector.one_smul_vec (v : Rvector) : (1 : ℝ) • v = v := by
  apply Rvector.ext_components <;> simp

theorem Rvector.add_smul_vec (a b : ℝ) (v : Rvector) :
    (a + b) • v = a • v + b • v := by
  apply Rvector.ext_components <;> simp <;> ring

theorem vsum_map_smul {α : Type} (f : α → ℝ) (v : Rvector) :
    ∀ l : List α, vsum (l.map fun a => f a • v) = (l.map f).sum • v
  | [] => by simp
  | a :: l => by
      simp [vsum_map_smul f v l, Rvector.add_smul_vec]

theorem sum_map_div {α : Type} (f : α → ℝ) (M : ℝ) :
    ∀ l : List α, (l.map fun a => f a / M).sum = (l.map f).sum / M
  | [] => by simp
  | a :: l => by
      simp [sum_map_div f M l, add_div]

theorem objSum_nonneg (c : Rvector) (q : Quat) :
    ∀ (ws : List ℝ) (xs rs : List Rvector), (∀ w ∈ ws, 0 ≤ w) →
      0 ≤ objSum c q ws xs rs
  | [], _, _, _ => by simp [objSum]
  | _ :: _, [], _, _ => by simp [objSum]
  | _ :: _, _ :: _, [], _ => by simp [objSum]
  | w :: ws, xv :: xs, r :: rs, h => by
      have hw : 0 ≤ w := h w (by simp)
      have hrec := objSum_nonneg c q ws xs rs fun w' hw' => h w' (by simp [hw'])
      have hterm : 0 ≤ w * ((q.rotate (xv - c)) - r).normSq :=
        mul_nonneg hw (Rvector.normSq_nonneg _)
      simpa [objSum] using add_nonneg hterm hrec

theorem objSum_self_zero :
    ∀ (ws : List ℝ) (xs : List Rvector), objSum 0 Quat.one ws xs xs = 0
  | [], _ => by simp [objSum]
  | _ :: _, [] => by simp [objSum]
  | w :: ws, xv :: xs => by
      simp [objSum, objSum_self_zero ws xs]

theorem fitObjective_zero_atom (q : Quat) :
    fitObjective [1] [0] [0] q = 0 := by
  simp [fitObjective, fitCenter, objSum]

theorem map_pos_zipWith_mass :
    ∀ (atoms : List Atom) (ms : List ℝ), ms.length = atoms.length →
      (List.zipWith (fun a m => { a with mass := m }) atoms ms).map Atom.pos =
        atoms.map Atom.pos
  | [], _, _ => by simp
  | _ :: _, [], h => by simp at h
  | a :: atoms, m :: ms, h => by
      simp only [List.length_cons, Nat.succ.injEq] at h
      simp [map_pos_zipWith_mass atoms ms h]

/-- C5: on a group with `b_dummy` set, `positions()` and `apply_forces(...)`
fail with an invalid-operation ("unsupported on dummy group") signal instead
of returning data or applying forces, while `center_of_geometry()` returns
the configured `dummy_atom_pos`. -/
theorem claim_c5_dummy_group_fails_fast (g : AtomGroup)
    (hd : g.data.b_dummy = true) :
    g.positions = .error "positions are unsupported on dummy group" ∧
    (∀ fs : List Rvector, g.apply_forces fs = .error "unsupported on dummy group") ∧
    g.center_of_geometry = g.data.dummy_atom_pos := by
  refine ⟨?_, fun fs => ?_, ?_⟩ <;>
    simp [AtomGroup.positions, AtomGroup.apply_forces,
      AtomGroup.center_of_geometry, hd]

/-- C5 witness: the concrete dummy group `gC5` fails both queries and
reports its fixed position `(1, 2, 3)`. -/
theorem claim_c5_witness :
    gC5.data.b_dummy = true ∧
    gC5.positions = .error "positions are unsupported on dummy group" ∧
    gC5.apply_forces [] = .error "unsupported on dummy group" ∧
    gC5.center_of_geometry = ⟨1, 2, 3⟩ := by
  have h := claim_c5_dummy_group_fails_fast gC5 rfl
  exact ⟨rfl, h.1, h.2.1 [], h.2.2⟩

/-- C6: on a group with `noforce` set, each of `apply_colvar_force`,
`apply_force` and `apply_forces` leaves the host force buffer unchanged for
any argument, and (on a non-dummy group) issues no `apply_atom_force` call
at all; the operations return no modified group state. -/
theorem claim_c6_noforce_is_noop (g : AtomGroup) (hn : g.data.noforce = true) :
    (∀ (f : ℝ) (buf : ForceBuffer), runForces buf (g.apply_colvar_force f) = buf) ∧
    (∀ (F : Rvector) (buf : ForceBuffer), runForces buf (g.apply_force F) = buf) ∧
    (∀ (fs : List Rvector) (buf : ForceBuffer), runForces buf (g.apply_forces fs) = buf) ∧
    (g.data.b_dummy = false →
      (∀ f : ℝ, g.apply_colvar_force f = .ok []) ∧
      (∀ F : Rvector, g.apply_force F = .ok []) ∧
      (∀ fs : List Rvector, g.apply_forces fs = .ok [])) := by
  refine ⟨fun f buf => ?_, fun F buf => ?_, fun fs buf => ?_,
    fun hd => ⟨fun f => ?_, fun F => ?_, fun fs => ?_⟩⟩ <;>
    cases hdum : g.data.b_dummy <;>
      simp_all [AtomGroup.apply_colvar_force, AtomGroup.apply_force,
        AtomGroup.apply_forces, runForces, foldForces, hn]

/-- C6 witness: `apply_colvar_force(10.0)` on the concrete `noforce` group
`gC6` leaves a zeroed host buffer unchanged and issues no force call. -/
theorem claim_c6_witness :
    gC6.data.noforce = true ∧
    runForces (fun _ => 0) (gC6.apply_colvar_force 10) = (fun _ => 0) ∧
    gC6.apply_colvar_force 10 = .ok [] := by
  have h := claim_c6_noforce_is_noop gC6 rfl
  exact ⟨rfl, h.1 10 _, (h.2.2.2 rfl).1 10⟩

/-- C7: `reset_atoms_data()` maps `reset_data` over the group's own member
atoms (each reset exactly once, all other fields kept), and recurses into
the fitting group exactly when the `ref_pos_group` pointer is set, i.e. when
the fitting group differs from the group itself (an unset pointer means the
group defines its own fit). -/
theorem claim_c7_reset_atoms_data_recursion (g : AtomGroup) :
    (g.reset_atoms_data).data =
      { g.data with atoms := g.data.atoms.map Atom.reset_data } ∧
    (g.reset_atoms_data).ref_pos_group =
      g.ref_pos_group.map AtomGroup.reset_atoms_data := by
  cases g with
  | mk d r =>
      cases r <;>
        simp [AtomGroup.reset_atoms_data, AtomGroup.data, AtomGroup.ref_pos_group]

/-- C8: `atom::reset_data` zeroes the cached position, velocity, system
force and gradient, and leaves `mass`, `id` and `index` unchanged. -/
theorem claim_c8_atom_reset_data_fields (a : Atom) :
    a.reset_data.pos = 0 ∧ a.reset_data.vel = 0 ∧
    a.reset_data.system_force = 0 ∧ a.reset_data.grad = 0 ∧
    a.reset_data.mass = a.mass ∧ a.reset_data.id = a.id ∧
    a.reset_data.index = a.index :=
  ⟨rfl, rfl, rfl, rfl, rfl, rfl, rfl⟩

/-- C9: on a non-dummy, non-empty group, `center_of_geometry()` is the
unweighted arithmetic mean of the cached member positions — unchanged under
any reassignment of the atoms' masses — and `center_of_mass()` is the
mass-weighted mean `(Σ massᵢ • posᵢ) / total_mass` (stated under
`total_mass > 0`). -/
theorem claim_c9_center_queries (g : AtomGroup) (hd : g.data.b_dummy = false)
    (_hne : g.data.atoms ≠ []) :
    g.center_of_geometry =
      ((g.data.atoms.length : ℝ))⁻¹ • vsum (g.data.atoms.map Atom.pos) ∧
    (∀ ms : List ℝ, ms.length = g.data.atoms.length →
      (g.with_masses ms).center_of_geometry = g.center_of_geometry) ∧
    (0 < g.data.total_mass →
      g.center_of_mass =
        (g.data.total_mass)⁻¹ • vsum (g.data.atoms.map fun a => a.mass • a.pos)) := by
  obtain ⟨d, r⟩ := g
  simp only [AtomGroup.data] at hd
  refine ⟨by simp [AtomGroup.center_of_geometry, AtomGroup.data, hd],
    fun ms hms => ?_,
    fun _ => by simp [AtomGroup.center_of_mass, AtomGroup.data, hd]⟩
  simp only [AtomGroup.data] at hms
  simp [AtomGroup.center_of_geometry, AtomGroup.with_masses, AtomGroup.data,
    hd, List.length_zipWith, hms, map_pos_zipWith_mass d.atoms ms hms]

/-- C9 witness: on the concrete group `gC9` the two centers evaluate to the
unweighted mean `(2,0,0)` and to the mass-weighted mean, and reassigning the
masses to 5 and 7 does not move the center of geometry. -/
theorem claim_c9_witness :
    gC9.data.b_dummy = false ∧ gC9.data.atoms ≠ [] ∧
    gC9.center_of_geometry =
      ((gC9.data.atoms.length : ℝ))⁻¹ • vsum (gC9.data.atoms.map Atom.pos) ∧
    (gC9.with_masses [5, 7]).center_of_geometry = gC9.center_of_geometry ∧
    gC9.center_of_mass =
      (gC9.data.total_mass)⁻¹ • vsum (gC9.data.atoms.map fun a => a.mass • a.pos) := by
  have h := claim_c9_center_queries gC9 rfl (by simp [gC9, AtomGroup.data])
  exact ⟨rfl, by simp [gC9, AtomGroup.data], h.1, h.2.1 [5, 7] rfl,
    h.2.2 (by norm_num [gC9, AtomGroup.data])⟩

/-- C10: on a non-dummy group, `positions_shifted(s)` returns a snapshot of
the same length as `positions()` whose i-th entry is the i-th entry of
`positions()` plus `s`; both are pure queries of the group value. -/
theorem claim_c10_positions_shifted (g : AtomGroup) (s : Rvector)
    (hd : g.data.b_dummy = false) :
    ∃ ps, g.positions = .ok ps ∧
      g.positions_shifted s = .ok (ps.map fun p => p + s) ∧
      (ps.map fun p => p + s).length = ps.length := by
  refine ⟨g.data.atoms.map Atom.pos, ?_, ?_, by simp⟩
  · simp [AtomGroup.positions, hd]
  · simp [AtomGroup.positions_shifted, hd, List.map_map, Function.comp]

/-- C10 witness: the concrete group `gC10` shifted by `(1,1,1)`. -/
theorem claim_c10_witness :
    gC10.data.b_dummy = false ∧
    ∃ ps, gC10.positions = .ok ps ∧
      gC10.positions_shifted ⟨1, 1, 1⟩ = .ok (ps.map fun p => p + ⟨1, 1, 1⟩) ∧
      (ps.map fun p => p + ⟨1, 1, 1⟩).length = ps.length :=
  ⟨rfl, claim_c10_positions_shifted gC10 ⟨1, 1, 1⟩ rfl⟩

/-- C1: a rotation stored in `rot` by `calc_apply_roto_translation` is
orthonormal (`RᵀR = I`) with determinant `+1`, and applying it to the
weighted-centroid-centered current positions makes the weighted sum of
squared displacements to the reference positions no larger than the identity
rotation does. -/
theorem claim_c1_solved_rotation_orthonormal_minimizing
    (g gx : AtomGroupData) (h : CalcApplyRotoTranslation g gx) :
    (rotMatrix gx.rot)ᵀ * rotMatrix gx.rot = 1 ∧
    (rotMatrix gx.rot).det = 1 ∧
    fitObjective g.fit_weights (g.atoms.map Atom.pos) g.ref_pos gx.rot ≤
      fitObjective g.fit_weights (g.atoms.map Atom.pos) g.ref_pos Quat.one := by
  obtain ⟨⟨hunit, hopt⟩, -⟩ := h
  refine ⟨?_, ?_, hopt Quat.one Quat.normSq_one⟩
  · rw [rotMatrix_transpose_mul, hunit]
    simp
  · rw [rotMatrix_det, hunit]
    simp

/-- C1 witness: on the one-atom configuration `gC1` the identity quaternion
is a solved fit, and the conclusions evaluate. -/
theorem claim_c1_witness :
    CalcApplyRotoTranslation gC1 gC1 ∧
    ((rotMatrix gC1.rot)ᵀ * rotMatrix gC1.rot = 1 ∧
     (rotMatrix gC1.rot).det = 1 ∧
     fitObjective gC1.fit_weights (gC1.atoms.map Atom.pos) gC1.ref_pos gC1.rot ≤
       fitObjective gC1.fit_weights (gC1.atoms.map Atom.pos) gC1.ref_pos Quat.one) := by
  have hc : CalcApplyRotoTranslation gC1 gC1 := by
    refine ⟨⟨Quat.normSq_one, fun p _ => ?_⟩, ?_⟩
    · simp [gC1, AtomGroupData.fit_weights, fitObjective_zero_atom]
    · simp [gC1, AtomGroupData.fit_translation, AtomGroupData.fit_weights,
        fitCenter]
  exact ⟨hc, claim_c1_solved_rotation_orthonormal_minimizing gC1 gC1 hc⟩

/-- C4 counterexample: `gC4` has its current positions exactly equal to its
(pre-centered) reference positions, yet `gC4x`, which stores a 180° rotation
about z, is a legitimate outcome of the fit solve — the solve need not yield
the identity rotation on a degenerate configuration. -/
theorem claim_c4_counterexample :
    gC4.atoms.map Atom.pos = gC4.ref_pos ∧
    fitCenter gC4.fit_weights gC4.ref_pos = 0 ∧
    CalcApplyRotoTranslation gC4 gC4x ∧
    rotMatrix gC4x.rot ≠ 1 := by
  refine ⟨rfl, ?_, ⟨⟨by norm_num [gC4x, gC4, Quat.normSq], fun p _ => ?_⟩, ?_⟩, ?_⟩
  · simp [gC4, AtomGroupData.fit_weights, fitCenter]
  · simp [gC4, gC4x, AtomGroupData.fit_weights, fitObjective_zero_atom]
  · simp [gC4, gC4x, AtomGroupData.fit_translation, AtomGroupData.fit_weights,
      fitCenter]
  · intro hmat
    have h00 := congrArg (fun M : Matrix (Fin 3) (Fin 3) ℝ => M 0 0) hmat
    simp [gC4x, gC4, rotMatrix, Matrix.one_apply] at h00
    norm_num at h00

/-- C4 (amended): fitting a group whose current positions equal its
pre-centered reference positions (nonnegative fit weights) yields a zero
translation, and the solved rotation attains the minimal objective value 0 —
the same value the identity rotation attains; on degenerate configurations
the solved rotation need not be the identity matrix. -/
theorem claim_c4_identity_fit_round_trip (g gx : AtomGroupData)
    (h : CalcApplyRotoTranslation g gx)
    (hx : g.atoms.map Atom.pos = g.ref_pos)
    (hr : fitCenter g.fit_weights g.ref_pos = 0)
    (hw : ∀ w ∈ g.fit_weights, 0 ≤ w) :
    g.fit_translation = 0 ∧
    fitObjective g.fit_weights (g.atoms.map Atom.pos) g.ref_pos Quat.one = 0 ∧
    fitObjective g.fit_weights (g.atoms.map Atom.pos) g.ref_pos gx.rot = 0 := by
  have ht : g.fit_translation = 0 := by
    rw [AtomGroupData.fit_translation, hx]
    exact hr
  have hone :
      fitObjective g.fit_weights (g.atoms.map Atom.pos) g.ref_pos Quat.one = 0 := by
    rw [fitObjective, hx, hr]
    exact objSum_self_zero _ _
  refine ⟨ht, hone, le_antisymm ?_ ?_⟩
  · rw [← hone]
    exact h.1.2 Quat.one Quat.normSq_one
  · exact objSum_nonneg _ _ _ _ _ hw

/-- C4 witness: the one-atom configuration `gC4w`, already at its reference,
with the identity rotation as the solved fit. -/
theorem claim_c4_witness :
    CalcApplyRotoTranslation gC4w gC4w ∧
    gC4w.atoms.map Atom.pos = gC4w.ref_pos ∧
    fitCenter gC4w.fit_weights gC4w.ref_pos = 0 ∧
    (∀ w ∈ gC4w.fit_weights, 0 ≤ w) ∧
    (gC4w.fit_translation = 0 ∧
     fitObjective gC4w.fit_weights (gC4w.atoms.map Atom.pos) gC4w.ref_pos Quat.one = 0 ∧
     fitObjective gC4w.fit_weights (gC4w.atoms.map Atom.pos) gC4w.ref_pos gC4w.rot = 0) := by
  have hc : CalcApplyRotoTranslation gC4w gC4w := by
    refine ⟨⟨Quat.normSq_one, fun p _ => ?_⟩, ?_⟩
    · simp [gC4w, AtomGroupData.fit_weights, fitObjective_zero_atom]
    · simp [gC4w, AtomGroupData.fit_translation, AtomGroupData.fit_weights,
        fitCenter]
  have hx : gC4w.atoms.map Atom.pos = gC4w.ref_pos := rfl
  have hr : fitCenter gC4w.fit_weights gC4w.ref_pos = 0 := by
    simp [gC4w, AtomGroupData.fit_weights, fitCenter]
  have hw : ∀ w ∈ gC4w.fit_weights, 0 ≤ w := by
    intro w hwmem
    simp [gC4w, AtomGroupData.fit_weights] at hwmem
    simp [hwmem]
  exact ⟨hc, hx, hr, hw,
    claim_c4_identity_fit_round_trip gC4w gC4w hc hx hr hw⟩

/-- C2 counterexample: on `gC2` (non-dummy, forces enabled, rotation fitting
active with fit gradients enabled) `apply_colvar_force(1)` does not
accumulate exactly `force • gradᵢ` per member: the fit-gradient contribution
is accumulated on top, so the issued force calls differ from the per-member
gradient forces alone. -/
theorem claim_c2_counterexample :
    gC2.data.b_dummy = false ∧ gC2.data.noforce = false ∧
    gC2.apply_colvar_force 1 ≠
      .ok (gC2.data.atoms.map fun a => (a.index, (1 : ℝ) • gC2.data.rotate_back a.grad)) := by
  refine ⟨rfl, rfl, ?_⟩
  simp [gC2, AtomGroup.apply_colvar_force, AtomGroup.fit_group,
    AtomGroup.data, AtomGroup.ref_pos_group]

/-- C2 (amended): on a non-dummy group with `noforce` false and fit
gradients inactive, `apply_colvar_force(force)` issues exactly one force
call per member atom, at that atom's index, with value `force • gradᵢ`
rotated back by the inverse fit rotation when `b_rotate` is set — and with
`b_rotate` set, rotating back is exactly the action of `Rᵀ`, the transpose
of the fit rotation's matrix; when fit gradients are active together with
rotation, the fit group's atoms additionally receive the fit-gradient
forces. -/
theorem claim_c2_colvar_force_propagation (g : AtomGroup) (force : ℝ)
    (hd : g.data.b_dummy = false) (hn : g.data.noforce = false)
    (hf : (g.data.b_rotate && g.data.b_fit_gradients) = false) :
    g.apply_colvar_force force =
      .ok (g.data.atoms.map fun a => (a.index, force • g.data.rotate_back a.grad)) ∧
    (g.data.b_rotate = true →
      ∀ v : Rvector,
        (g.data.rotate_back v).toFn = ((rotMatrix g.data.rot)ᵀ).mulVec v.toFn) := by
  constructor
  · simp [AtomGroup.apply_colvar_force, hd, hn, hf]
  · intro hb v
    simp only [AtomGroupData.rotate_back, hb, if_true]
    rw [rotate_eq_mulVec, rotMatrix_conj]

/-- C2 witness: on `gC2w` (rotation fitting active, identity rotation, fit
gradients off) `apply_colvar_force(2)` issues exactly the single force call
`2 • grad` at the atom's index. -/
theorem claim_c2_witness :
    gC2w.data.b_dummy = false ∧ gC2w.data.noforce = false ∧
    (gC2w.data.b_rotate && gC2w.data.b_fit_gradients) = false ∧
    gC2w.apply_colvar_force 2 = .ok [((7 : Int), (⟨2, 4, 6⟩ : Rvector))] := by
  have h := (claim_c2_colvar_force_propagation gC2w 2 rfl rfl rfl).1
  refine ⟨rfl, rfl, rfl, ?_⟩
  rw [h]
  have hrb : gC2w.data.rotate_back ⟨1, 2, 3⟩ = ⟨1, 2, 3⟩ := by
    apply Rvector.ext_components <;>
      norm_num [gC2w, AtomGroup.data, AtomGroupData.rotate_back, Quat.conj,
        Quat.rotate, Quat.one]
  have hmap : gC2w.data.atoms = [⟨7, 7, 1, 0, 0, 0, ⟨1, 2, 3⟩⟩] := rfl
  rw [hmap]
  simp [hrb]
  apply Rvector.ext_components <;> norm_num

/-- C3: on a non-dummy group with `noforce` false, `apply_force(F)` issues
one force call per member, at that atom's index, with share
`massᵢ / total_mass` of `F` (or `weightᵢ / Σ weights` when explicit weights
are present), rotated back by the inverse fit rotation when `b_rotate` is
set; with implicit mass weighting, rotation disabled and a consistent
nonzero `total_mass`, the issued forces sum exactly to `F`. -/
theorem claim_c3_force_distribution (g : AtomGroup) (force : Rvector)
    (hd : g.data.b_dummy = false) (hn : g.data.noforce = false) :
    (g.data.weights.isEmpty = true →
      g.apply_force force = .ok (g.data.atoms.map fun a =>
        (a.index, (a.mass / g.data.total_mass) • g.data.rotate_back force))) ∧
    (g.data.weights.isEmpty = false →
      g.apply_force force = .ok (List.zipWith (fun a w =>
        (a.index, (w / g.data.weights.sum) • g.data.rotate_back force))
        g.data.atoms g.data.weights)) ∧
    (g.data.b_rotate = false → g.data.weights.isEmpty = true →
      g.data.total_mass = (g.data.atoms.map Atom.mass).sum →
      g.data.total_mass ≠ 0 →
      ∃ l, g.apply_force force = .ok l ∧ vsum (l.map Prod.snd) = force) := by
  refine ⟨fun hw => ?_, fun hw => ?_, fun hb hw hm hnz => ?_⟩
  · simp [AtomGroup.apply_force, hd, hn, hw]
  · simp [AtomGroup.apply_force, hd, hn, hw]
  · refine ⟨g.data.atoms.map fun a =>
      (a.index, (a.mass / g.data.total_mass) • g.data.rotate_back force),
      by simp [AtomGroup.apply_force, hd, hn, hw], ?_⟩
    have hrb : g.data.rotate_back force = force := by
      simp [AtomGroupData.rotate_back, hb]
    rw [hrb, List.map_map]
    have hcomp :
        (Prod.snd ∘ fun a : Atom =>
            (a.index, (a.mass / g.data.total_mass) • force)) =
          fun a : Atom => (a.mass / g.data.total_mass) • force := rfl
    rw [hcomp, vsum_map_smul (fun a : Atom => a.mass / g.data.total_mass) force,
      sum_map_div Atom.mass g.data.total_mass, ← hm, div_self hnz,
      Rvector.one_smul_vec]

/-- C3 witness: on the two-atom mass-weighted group `gC3` (masses 1 and 3,
rotation off) the issued forces for `F = (4, 0, 8)` sum exactly to `F`. -/
theorem claim_c3_witness :
    gC3.data.b_dummy = false ∧ gC3.data.noforce = false ∧
    gC3.data.b_rotate = false ∧ gC3.data.weights.isEmpty = true ∧
    gC3.data.total_mass = (gC3.data.atoms.map Atom.mass).sum ∧
    ∃ l, gC3.apply_force ⟨4, 0, 8⟩ = .ok l ∧
      vsum (l.map Prod.snd) = (⟨4, 0, 8⟩ : Rvector) := by
  refine ⟨rfl, rfl, rfl, rfl, by norm_num [gC3, AtomGroup.data], ?_⟩
  exact (claim_c3_force_distribution gC3 ⟨4, 0, 8⟩ rfl rfl).2.2 rfl rfl
    (by norm_num [gC3, AtomGroup.data]) (by norm_num [gC3, AtomGroup.data])

end Colvars
